import Mathlib

/-
Verification of the GeePea Toeplitz solver module (GPToeplitz.py).

The repository source under verification consists of the Python module
GPToeplitz.py: a ctypes wrapper LTZSolve around a compiled
Levinson-Trench-Zohar solver, plus covariance-matrix assembly helpers
built on scipy.linalg.toeplitz and numpy diagonal/identity primitives.

The compiled solver itself (LevinsonTrenchZoharSolve) ships only as a
binary in the repository, so its recursion is modelled here from the
specification (section 4.1 of the design document), as are the frame
facts about its buffers.  Every definition carries a comment naming the
Python function (or the spec passage) it embeds.
-/

namespace GeePea

open Matrix

variable {α : Type} [Field α]

/-- Modelled from the spec (data model, section 3): the dense symmetric
Toeplitz matrix generated by the vector a, with entry (i, j) equal to
a[|i-j|].  The size K is passed explicitly, matching the explicit length
argument of the solver interface; the claims use K = a.length. -/
def toepMat (a : List α) (K : ℕ) : Matrix (Fin K) (Fin K) α :=
  Matrix.of fun i j => a.getD (Nat.dist i.val j.val) 0

/-- State of the Levinson-Trench-Zohar recursion after completing one
order: the monic forward prediction filter, the current pivot
(prediction-error power), the partial solution, and the list of all
pivots produced so far. -/
structure LTZState (α : Type) where
  filt : List α
  piv : α
  sol : List α
  pivs : List α

/-- Modelled from the spec (section 4.1, step 2): the cross-correlation
between the generating vector a and a filter (or partial solution) f at
order m, namely the sum of f[j] * a[m-j] over the entries of f. -/
def corrF (a f : List α) (m : ℕ) : α :=
  ∑ j ∈ Finset.range f.length, f.getD j 0 * a.getD (m - j) 0

/-- Modelled from the spec (section 4.1, step 1): order-1
initialisation of the Levinson-Trench-Zohar recursion.  The compiled
solver LevinsonTrenchZoharSolve is not part of the Python source, so
its recursion is reconstructed from the algorithm description:
x[0] = b[0]/a[0], filter = (1), pivot p0 = a[0]. -/
def ltzInit (a b : List α) : LTZState α :=
  ⟨[1], a.getD 0 0, [b.getD 0 0 / a.getD 0 0], [a.getD 0 0]⟩

/-- Modelled from the spec (section 4.1, step 2): one order update of
the Levinson-Trench-Zohar recursion, from order m-1 to order m.  The
reflection coefficient is the ratio of the cross-correlation to the
previous pivot (with the sign fixed by the standard Levinson order
update); the filter is combined with its time-reverse scaled by the
reflection coefficient; the pivot is multiplied by one minus the
squared reflection coefficient; the partial solution is extended by the
residual divided by the new pivot times the reversed new filter. -/
def ltzStep (a b : List α) (m : ℕ) (s : LTZState α) : LTZState α :=
  let γ := -(corrF a s.filt m) / s.piv
  let filt2 := List.zipWith (fun u v => u + γ * v) (s.filt ++ [0]) (s.filt ++ [0]).reverse
  let p2 := s.piv * (1 - γ ^ 2)
  let μ := (b.getD m 0 - corrF a s.sol m) / p2
  let sol2 := List.zipWith (fun u v => u + μ * v) (s.sol ++ [0]) filt2.reverse
  ⟨filt2, p2, sol2, s.pivs ++ [p2]⟩

/-- Modelled from the spec (section 4.1): the recursion state after
completing order m (orders are numbered 0 to n-1). -/
def ltzIter (a b : List α) : ℕ → LTZState α
  | 0 => ltzInit a b
  | m + 1 => ltzStep a b (m + 1) (ltzIter a b m)

/-- Modelled from the spec (section 4.1, step 3): the final recursion
state of a solve call with explicit length n, reached after order n-1. -/
def ltzRun (a b : List α) (n : ℕ) : LTZState α := ltzIter a b (n - 1)

/-- Modelled from the spec (sections 4.1 and 6): the compiled solver
LevinsonTrenchZoharSolve, absent from the Python source.  Argument
order (a, x, b, n) matches the call site in LTZSolve; the x argument is
the caller-allocated output buffer, whose incoming contents are never
read.  The value returned is the pair of the scalar return value (the
log-determinant, accumulated as the sum of log over the recursion
pivots) and the final contents of the x buffer (the solution). -/
def LTZSolveC (rlog : α → α) (a x b : List α) (n : ℕ) : α × List α :=
  (((ltzRun a b n).pivs.map rlog).sum, (ltzRun a b n).sol)

/-- The Python wrapper LTZSolve(a, b, x) from GPToeplitz.py: asserts
a.size == b.size and a.size == x.size (modelled as returning none when
an assertion fails), then calls LTZSolveC(a, x, b, a.size) and returns
the tuple (logdetK, x). -/
def LTZSolve (rlog : α → α) (a b x : List α) : Option (α × List α) :=
  if a.length = b.length then
    if a.length = x.length then some (LTZSolveC rlog a x b a.length)
    else none
  else none

/-- Row-form dot product used to state the recursion invariants: the
inner product of a filter (or solution) f against row i of the Toeplitz
matrix generated by a. -/
def dotT (a f : List α) (i : ℕ) : α :=
  ∑ j ∈ Finset.range f.length, f.getD j 0 * a.getD (Nat.dist i j) 0

/-! Basic getD lemmas used throughout. -/

theorem getD_append_zero (l : List α) (j : ℕ) : (l ++ [(0 : α)]).getD j 0 = l.getD j 0 := by
  rcases lt_trichotomy j l.length with h | h | h
  · rw [List.getD_append _ _ _ _ h]
  · subst h
    rw [List.getD_eq_getElem _ _ (by simp), List.getD_eq_default _ _ le_rfl]
    simp
  · rw [List.getD_eq_default _ _ (by simp; omega), List.getD_eq_default _ _ (by omega)]

theorem getD_zipWith_lin (c : α) (l₁ l₂ : List α) (h : l₂.length = l₁.length)
    (j : ℕ) (hj : j < l₁.length) :
    (List.zipWith (fun u v => u + c * v) l₁ l₂).getD j 0 = l₁.getD j 0 + c * l₂.getD j 0 := by
  have hlen : (List.zipWith (fun u v => u + c * v) l₁ l₂).length = l₁.length := by
    simp [List.length_zipWith, h]
  rw [List.getD_eq_getElem _ _ (by rw [hlen]; exact hj),
    List.getD_eq_getElem _ _ hj, List.getD_eq_getElem _ _ (by rw [h]; exact hj),
    List.getElem_zipWith]

theorem getD_reverse_in (l : List α) (j : ℕ) (hj : j < l.length) :
    l.reverse.getD j 0 = l.getD (l.length - 1 - j) 0 := by
  rw [List.getD_eq_getElem _ _ (by simpa using hj),
    List.getD_eq_getElem _ _ (by omega), List.getElem_reverse]

theorem getD_take_eq (l : List α) (K j : ℕ) (hj : j < K) :
    (l.take K).getD j 0 = l.getD j 0 := by
  by_cases hl : j < l.length
  · rw [List.getD_eq_getElem _ _ (by simp; omega), List.getD_eq_getElem _ _ hl,
      List.getElem_take]
  · rw [List.getD_eq_default _ _ (by simp; omega), List.getD_eq_default _ _ (by omega)]

/-! Structural facts about the recursion state. -/

theorem ltzIter_filt_sol_length (a b : List α) (m : ℕ) :
    (ltzIter a b m).filt.length = m + 1 ∧ (ltzIter a b m).sol.length = m + 1 := by
  induction m with
  | zero => constructor <;> rfl
  | succ m ih =>
      obtain ⟨hf, hs⟩ := ih
      constructor
      · show (List.zipWith _ _ _).length = m + 2
        simp [List.length_zipWith, hf]
      · show (List.zipWith _ _ _).length = m + 2
        simp [List.length_zipWith, hf, hs]

theorem ltzIter_filt_length (a b : List α) (m : ℕ) :
    (ltzIter a b m).filt.length = m + 1 :=
  (ltzIter_filt_sol_length a b m).1

theorem ltzIter_sol_length (a b : List α) (m : ℕ) :
    (ltzIter a b m).sol.length = m + 1 :=
  (ltzIter_filt_sol_length a b m).2

theorem ltzIter_piv_succ (a b : List α) (m : ℕ) :
    (ltzIter a b (m + 1)).piv =
      (ltzIter a b m).piv * (1 - (-(corrF a (ltzIter a b m).filt (m + 1)) / (ltzIter a b m).piv) ^ 2) :=
  rfl

theorem ltzIter_filt_succ (a b : List α) (m : ℕ) :
    (ltzIter a b (m + 1)).filt =
      List.zipWith
        (fun u v => u + (-(corrF a (ltzIter a b m).filt (m + 1)) / (ltzIter a b m).piv) * v)
        ((ltzIter a b m).filt ++ [0]) ((ltzIter a b m).filt ++ [0]).reverse :=
  rfl

theorem ltzIter_sol_succ (a b : List α) (m : ℕ) :
    (ltzIter a b (m + 1)).sol =
      List.zipWith
        (fun u v => u +
          ((b.getD (m + 1) 0 - corrF a (ltzIter a b m).sol (m + 1)) / (ltzIter a b (m + 1)).piv) * v)
        ((ltzIter a b m).sol ++ [0]) (ltzIter a b (m + 1)).filt.reverse :=
  rfl

theorem ltzIter_pivs_spec (a b : List α) (m : ℕ) :
    (ltzIter a b m).pivs = (List.range (m + 1)).map fun k => (ltzIter a b k).piv := by
  induction m with
  | zero => rfl
  | succ m ih =>
      have hstep : (ltzIter a b (m + 1)).pivs =
          (ltzIter a b m).pivs ++ [(ltzIter a b (m + 1)).piv] := rfl
      rw [hstep, ih]
      conv_rhs => rw [List.range_succ, List.map_append]
      simp

theorem ltzIter_filt_head (a b : List α) (m : ℕ) :
    (ltzIter a b m).filt.getD 0 0 = 1 := by
  induction m with
  | zero => rfl
  | succ m ih =>
      have hf := ltzIter_filt_length a b m
      rw [ltzIter_filt_succ]
      rw [getD_zipWith_lin _ _ _ (by simp) 0 (by simp)]
      rw [getD_reverse_in _ 0 (by simp)]
      simp only [List.length_append, List.length_singleton, hf]
      rw [getD_append_zero, getD_append_zero]
      rw [ih]
      have h2 : m + 1 + 1 - 1 - 0 = m + 1 := by omega
      rw [h2]
      rw [List.getD_eq_default _ _ (by rw [hf])]
      ring

/-! Arithmetic helpers about the lag function. -/

theorem dist_sub_right (m j : ℕ) (hj : j ≤ m) : Nat.dist m j = m - j := by
  simp [Nat.dist]
  omega

theorem dist_cross (i j m : ℕ) (hi : i ≤ m) (hj : j ≤ m) :
    Nat.dist i (m - j) = Nat.dist (m - i) j := by
  simp [Nat.dist]
  omega

theorem corrF_eq_dotT (a f : List α) (m : ℕ) (h : f.length ≤ m) :
    corrF a f m = dotT a f m := by
  unfold corrF dotT
  refine Finset.sum_congr rfl fun j hj => ?_
  rw [Finset.mem_range] at hj
  rw [dist_sub_right m j (by omega)]

theorem dotT_append_zero (a l : List α) (i : ℕ) :
    dotT a (l ++ [(0 : α)]) i = dotT a l i := by
  unfold dotT
  simp only [List.length_append, List.length_singleton]
  rw [Finset.sum_range_succ]
  have h1 : ∀ j, (l ++ [(0 : α)]).getD j 0 = l.getD j 0 := getD_append_zero l
  simp only [h1]
  rw [List.getD_eq_default _ _ le_rfl]
  simp

theorem dotT_combine (a l g : List α) (c : α) (hg : g.length = l.length + 1)
    (i : ℕ) (hi : i ≤ l.length) :
    dotT a (List.zipWith (fun u v => u + c * v) (l ++ [0]) g.reverse) i
      = dotT a l i + c * dotT a g (l.length - i) := by
  have hz : (List.zipWith (fun u v => u + c * v) (l ++ [0]) g.reverse).length
      = l.length + 1 := by
    simp [List.length_zipWith, hg]
  unfold dotT
  rw [hz]
  have hterm : ∀ j ∈ Finset.range (l.length + 1),
      (List.zipWith (fun u v => u + c * v) (l ++ [0]) g.reverse).getD j 0 *
          a.getD (Nat.dist i j) 0
        = l.getD j 0 * a.getD (Nat.dist i j) 0 +
            c * (g.getD (l.length - j) 0 * a.getD (Nat.dist i j) 0) := by
    intro j hj
    rw [Finset.mem_range] at hj
    rw [getD_zipWith_lin c (l ++ [0]) g.reverse (by simp [hg]) j (by simp; omega)]
    rw [getD_reverse_in g j (by omega)]
    rw [getD_append_zero]
    have hidx : g.length - 1 - j = l.length - j := by omega
    rw [hidx]
    ring
  rw [Finset.sum_congr rfl hterm]
  rw [Finset.sum_add_distrib]
  congr 1
  · rw [Finset.sum_range_succ]
    rw [List.getD_eq_default _ _ le_rfl]
    simp
  · rw [← Finset.mul_sum]
    congr 1
    have hrefl := Finset.sum_range_reflect
      (fun j => g.getD j 0 * a.getD (Nat.dist i (l.length - j)) 0) (l.length + 1)
    have hleft : ∑ j ∈ Finset.range (l.length + 1),
        g.getD (l.length - j) 0 * a.getD (Nat.dist i j) 0
      = ∑ j ∈ Finset.range (l.length + 1),
          g.getD (l.length + 1 - 1 - j) 0 *
            a.getD (Nat.dist i (l.length - (l.length + 1 - 1 - j))) 0 := by
      refine Finset.sum_congr rfl fun j hj => ?_
      rw [Finset.mem_range] at hj
      have e1 : l.length + 1 - 1 - j = l.length - j := by omega
      have e2 : l.length - (l.length - j) = j := by omega
      rw [e1, e2]
    rw [hleft, hrefl]
    rw [hg]
    refine Finset.sum_congr rfl fun j hj => ?_
    rw [Finset.mem_range] at hj
    rw [dist_cross i j l.length hi (by omega)]

/-! The two recursion invariants: the filter rows and the solution rows
of the implicit Toeplitz system. -/

theorem ltz_filt_inv (a b : List α) :
    ∀ m, (∀ k, k < m → (ltzIter a b k).piv ≠ 0) →
      ∀ i, i ≤ m →
        dotT a (ltzIter a b m).filt i = if i = 0 then (ltzIter a b m).piv else 0 := by
  intro m
  induction m with
  | zero =>
      intro _ i hi
      have hi0 : i = 0 := by omega
      subst hi0
      show dotT a [1] 0 = if (0 : ℕ) = 0 then a.getD 0 0 else 0
      unfold dotT
      simp [Nat.dist]
  | succ m ih =>
      intro hp i hi
      have hpm : (ltzIter a b m).piv ≠ 0 := hp m (Nat.lt_succ_self m)
      have ihf := ih fun k hk => hp k (hk.trans (Nat.lt_succ_self m))
      have hflen := ltzIter_filt_length a b m
      rw [ltzIter_filt_succ]
      rw [dotT_combine a (ltzIter a b m).filt ((ltzIter a b m).filt ++ [0]) _
        (by simp) i (by omega)]
      rw [dotT_append_zero]
      rw [hflen]
      have hc : corrF a (ltzIter a b m).filt (m + 1)
          = dotT a (ltzIter a b m).filt (m + 1) :=
        corrF_eq_dotT a _ (m + 1) (by rw [hflen])
      by_cases hi0 : i = 0
      · subst hi0
        rw [if_pos rfl]
        rw [ihf 0 (Nat.zero_le m)]
        rw [if_pos rfl]
        have hm1 : m + 1 - 0 = m + 1 := rfl
        rw [hm1]
        rw [← hc]
        rw [ltzIter_piv_succ]
        field_simp
        ring
      · rw [if_neg hi0]
        by_cases him : i = m + 1
        · subst him
          have hz : m + 1 - (m + 1) = 0 := by omega
          rw [hz]
          rw [ihf 0 (Nat.zero_le m), if_pos rfl]
          rw [hc]
          rw [div_mul_cancel₀ _ hpm]
          ring
        · have h1 : 1 ≤ i := Nat.one_le_iff_ne_zero.mpr hi0
          have h2 : i ≤ m := by omega
          rw [ihf i h2, if_neg hi0]
          rw [ihf (m + 1 - i) (by omega), if_neg (by omega)]
          ring

theorem ltz_sol_inv (a b : List α) :
    ∀ m, (∀ k, k ≤ m → (ltzIter a b k).piv ≠ 0) →
      ∀ i, i ≤ m → dotT a (ltzIter a b m).sol i = b.getD i 0 := by
  intro m
  induction m with
  | zero =>
      intro hp i hi
      have hi0 : i = 0 := by omega
      subst hi0
      have hp0 : a.getD 0 0 ≠ 0 := hp 0 le_rfl
      show dotT a [b.getD 0 0 / a.getD 0 0] 0 = b.getD 0 0
      have hd : dotT a [b.getD 0 0 / a.getD 0 0] 0
          = (b.getD 0 0 / a.getD 0 0) * a.getD 0 0 := by
        unfold dotT
        rw [List.length_singleton, Finset.sum_range_one, Nat.dist_self]
        rfl
      rw [hd]
      exact div_mul_cancel₀ _ hp0
  | succ m ih =>
      intro hp i hi
      have ihs := ih fun k hk => hp k (by omega)
      have hslen := ltzIter_sol_length a b m
      have hflen2 := ltzIter_filt_length a b (m + 1)
      have hfinv := ltz_filt_inv a b (m + 1) (fun k hk => hp k (by omega))
      have hp2 : (ltzIter a b (m + 1)).piv ≠ 0 := hp (m + 1) le_rfl
      rw [ltzIter_sol_succ]
      rw [dotT_combine a (ltzIter a b m).sol (ltzIter a b (m + 1)).filt _
        (by rw [hflen2, hslen]) i (by omega)]
      rw [hslen]
      by_cases him : i = m + 1
      · subst him
        have hz : m + 1 - (m + 1) = 0 := by omega
        rw [hz]
        rw [hfinv 0 (Nat.zero_le (m + 1)), if_pos rfl]
        rw [corrF_eq_dotT a _ (m + 1) (by rw [hslen])]
        rw [div_mul_cancel₀ _ hp2]
        ring
      · have h2 : i ≤ m := by omega
        rw [ihs i h2]
        rw [hfinv (m + 1 - i) (by omega), if_neg (by omega)]
        ring

/-! Connecting the invariants to the dense Toeplitz matrix. -/

theorem finSum_eq_rangeSum (K : ℕ) (F : ℕ → α) :
    (∑ s : Fin K, F s.val) = ∑ t ∈ Finset.range K, F t :=
  Fin.sum_univ_eq_sum_range F K

theorem ltz_mulVec (a b : List α) (m : ℕ)
    (hp : ∀ k, k ≤ m → (ltzIter a b k).piv ≠ 0) (i : Fin (m + 1)) :
    (toepMat a (m + 1)).mulVec (fun j => (ltzIter a b m).sol.getD j.val 0) i
      = b.getD i.val 0 := by
  have hs := ltzIter_sol_length a b m
  have hinv := ltz_sol_inv a b m hp i.val (by omega)
  show (∑ j : Fin (m + 1), toepMat a (m + 1) i j * (ltzIter a b m).sol.getD j.val 0) = _
  have hconv : (∑ j : Fin (m + 1), toepMat a (m + 1) i j * (ltzIter a b m).sol.getD j.val 0)
      = ∑ t ∈ Finset.range (m + 1),
          a.getD (Nat.dist i.val t) 0 * (ltzIter a b m).sol.getD t 0 := by
    rw [← finSum_eq_rangeSum (m + 1)
      (fun t => a.getD (Nat.dist i.val t) 0 * (ltzIter a b m).sol.getD t 0)]
    exact Finset.sum_congr rfl fun s _ => rfl
  rw [hconv]
  unfold dotT at hinv
  rw [hs] at hinv
  rw [← hinv]
  exact Finset.sum_congr rfl fun j _ => mul_comm _ _

/-- Proof scaffolding (not part of the source): the unit upper
triangular matrix whose column j holds the reversed order-j prediction
filter.  Conjugating the Toeplitz matrix by it diagonalises it with the
pivots on the diagonal, which yields the determinant identity. -/
def ltzTri (a b : List α) (K : ℕ) : Matrix (Fin K) (Fin K) α :=
  Matrix.of fun i j =>
    if i.val ≤ j.val then (ltzIter a b j.val).filt.getD (j.val - i.val) 0 else 0

theorem ltzTri_diag (a b : List α) (K : ℕ) (i : Fin K) : ltzTri a b K i i = 1 := by
  show (if i.val ≤ i.val then (ltzIter a b i.val).filt.getD (i.val - i.val) 0 else 0) = 1
  rw [if_pos le_rfl, Nat.sub_self]
  exact ltzIter_filt_head a b i.val

theorem ltzTri_det (a b : List α) (K : ℕ) : (ltzTri a b K).det = 1 := by
  rw [Matrix.det_of_upperTriangular]
  · rw [Finset.prod_congr rfl fun i _ => ltzTri_diag a b K i]
    exact Finset.prod_const_one
  · intro i j hij
    exact if_neg (by exact Nat.not_le.mpr hij)

theorem toepMat_transpose (a : List α) (K : ℕ) : (toepMat a K)ᵀ = toepMat a K := by
  ext i j
  show a.getD (Nat.dist j.val i.val) 0 = a.getD (Nat.dist i.val j.val) 0
  rw [Nat.dist_comm]

theorem TV_entry (a b : List α) (K : ℕ)
    (hp : ∀ k, k + 1 < K → (ltzIter a b k).piv ≠ 0)
    (r j : Fin K) (hrj : r.val ≤ j.val) :
    (toepMat a K * ltzTri a b K) r j
      = if r = j then (ltzIter a b j.val).piv else 0 := by
  have hflen := ltzIter_filt_length a b j.val
  have hfinv := ltz_filt_inv a b j.val
    (fun k hk => hp k (by have := j.isLt; omega)) (j.val - r.val) (by omega)
  rw [Matrix.mul_apply]
  have h1 : (∑ s : Fin K, toepMat a K r s * ltzTri a b K s j)
      = ∑ t ∈ Finset.range K,
          a.getD (Nat.dist r.val t) 0 *
            (if t ≤ j.val then (ltzIter a b j.val).filt.getD (j.val - t) 0 else 0) := by
    rw [← finSum_eq_rangeSum K
      (fun t => a.getD (Nat.dist r.val t) 0 *
        (if t ≤ j.val then (ltzIter a b j.val).filt.getD (j.val - t) 0 else 0))]
    exact Finset.sum_congr rfl fun s _ => rfl
  rw [h1]
  have hsub : Finset.range (j.val + 1) ⊆ Finset.range K :=
    Finset.range_subset.mpr (by have := j.isLt; omega)
  have hzero : ∀ t ∈ Finset.range K, t ∉ Finset.range (j.val + 1) →
      a.getD (Nat.dist r.val t) 0 *
        (if t ≤ j.val then (ltzIter a b j.val).filt.getD (j.val - t) 0 else 0) = 0 := by
    intro t _ htn
    rw [Finset.mem_range] at htn
    rw [if_neg (by omega), mul_zero]
  rw [← Finset.sum_subset hsub hzero]
  have h3 : ∑ t ∈ Finset.range (j.val + 1),
      a.getD (Nat.dist r.val t) 0 *
        (if t ≤ j.val then (ltzIter a b j.val).filt.getD (j.val - t) 0 else 0)
      = ∑ t ∈ Finset.range (j.val + 1),
          (ltzIter a b j.val).filt.getD (j.val - t) 0 * a.getD (Nat.dist r.val t) 0 := by
    refine Finset.sum_congr rfl fun t ht => ?_
    rw [Finset.mem_range] at ht
    rw [if_pos (by omega)]
    ring
  rw [h3]
  have h4 : ∑ t ∈ Finset.range (j.val + 1),
      (ltzIter a b j.val).filt.getD (j.val - t) 0 * a.getD (Nat.dist r.val t) 0
      = dotT a (ltzIter a b j.val).filt (j.val - r.val) :=
    calc
      ∑ t ∈ Finset.range (j.val + 1),
          (ltzIter a b j.val).filt.getD (j.val - t) 0 * a.getD (Nat.dist r.val t) 0
        = ∑ t ∈ Finset.range (j.val + 1),
            (ltzIter a b j.val).filt.getD (j.val + 1 - 1 - t) 0 *
              a.getD (Nat.dist r.val (j.val - (j.val + 1 - 1 - t))) 0 := by
          refine Finset.sum_congr rfl fun t ht => ?_
          rw [Finset.mem_range] at ht
          have e1 : j.val + 1 - 1 - t = j.val - t := by omega
          have e2 : j.val - (j.val - t) = t := by omega
          conv_rhs => rw [e1, e2]
      _ = ∑ t ∈ Finset.range (j.val + 1),
            (ltzIter a b j.val).filt.getD t 0 *
              a.getD (Nat.dist r.val (j.val - t)) 0 :=
          Finset.sum_range_reflect
            (fun t => (ltzIter a b j.val).filt.getD t 0 *
              a.getD (Nat.dist r.val (j.val - t)) 0) (j.val + 1)
      _ = ∑ t ∈ Finset.range (j.val + 1),
            (ltzIter a b j.val).filt.getD t 0 *
              a.getD (Nat.dist (j.val - r.val) t) 0 := by
          refine Finset.sum_congr rfl fun t ht => ?_
          rw [Finset.mem_range] at ht
          rw [dist_cross r.val t j.val hrj (by omega)]
      _ = dotT a (ltzIter a b j.val).filt (j.val - r.val) := by
          unfold dotT
          rw [hflen]
  rw [h4, hfinv]
  by_cases h : r = j
  · subst h
    rw [if_pos (Nat.sub_self r.val), if_pos rfl]
  · have hne : j.val - r.val ≠ 0 := fun hh => h (Fin.ext (by omega))
    rw [if_neg hne, if_neg h]

theorem VTV_entry_le (a b : List α) (K : ℕ)
    (hp : ∀ k, k + 1 < K → (ltzIter a b k).piv ≠ 0)
    (i j : Fin K) (hij : i.val ≤ j.val) :
    ((ltzTri a b K)ᵀ * (toepMat a K * ltzTri a b K)) i j
      = if i = j then (ltzIter a b j.val).piv else 0 := by
  rw [Matrix.mul_apply]
  have key : ∀ r : Fin K,
      (ltzTri a b K)ᵀ i r * (toepMat a K * ltzTri a b K) r j
        = if r = i then (if i = j then (ltzIter a b j.val).piv else 0) else 0 := by
    intro r
    by_cases hri : r = i
    · subst hri
      rw [if_pos rfl]
      have h1 : (ltzTri a b K)ᵀ r r = 1 := by
        show ltzTri a b K r r = 1
        exact ltzTri_diag a b K r
      rw [h1, one_mul]
      rw [TV_entry a b K hp r j hij]
    · rw [if_neg hri]
      rcases lt_or_gt_of_ne (fun hv => hri (Fin.ext hv) :
          (r.val : ℕ) ≠ i.val) with hlt | hgt
      · have h2 : (toepMat a K * ltzTri a b K) r j
            = if r = j then (ltzIter a b j.val).piv else 0 :=
          TV_entry a b K hp r j (by omega)
        rw [h2, if_neg (fun hh => by
          have : r.val = j.val := congrArg Fin.val hh
          omega)]
        rw [mul_zero]
      · have h3 : (ltzTri a b K)ᵀ i r = 0 := by
          show ltzTri a b K r i = 0
          exact if_neg (by omega)
        rw [h3, zero_mul]
  rw [Finset.sum_congr rfl fun r _ => key r]
  rw [Finset.sum_ite_eq' Finset.univ i
    (fun _ => if i = j then (ltzIter a b j.val).piv else 0)]
  rw [if_pos (Finset.mem_univ i)]

theorem VTV_symm (a b : List α) (K : ℕ) :
    ((ltzTri a b K)ᵀ * (toepMat a K * ltzTri a b K))ᵀ
      = (ltzTri a b K)ᵀ * (toepMat a K * ltzTri a b K) := by
  rw [Matrix.transpose_mul, Matrix.transpose_mul, Matrix.transpose_transpose,
    toepMat_transpose, Matrix.mul_assoc]

theorem VTV_diag (a b : List α) (K : ℕ)
    (hp : ∀ k, k + 1 < K → (ltzIter a b k).piv ≠ 0) :
    (ltzTri a b K)ᵀ * (toepMat a K * ltzTri a b K)
      = Matrix.diagonal (fun k : Fin K => (ltzIter a b k.val).piv) := by
  ext i j
  rcases le_or_lt i.val j.val with hij | hij
  · rw [VTV_entry_le a b K hp i j hij]
    by_cases h : i = j
    · subst h
      rw [if_pos rfl, Matrix.diagonal_apply_eq]
    · rw [if_neg h, Matrix.diagonal_apply_ne _ h]
  · have hsymm := congrFun (congrFun (VTV_symm a b K) j) i
    have h1 : ((ltzTri a b K)ᵀ * (toepMat a K * ltzTri a b K)) i j
        = ((ltzTri a b K)ᵀ * (toepMat a K * ltzTri a b K)) j i := by
      rw [← hsymm]
      rfl
    rw [h1, VTV_entry_le a b K hp j i (by omega)]
    have hne : j ≠ i := fun hh => by
      have : j.val = i.val := congrArg Fin.val hh
      omega
    rw [if_neg hne, Matrix.diagonal_apply_ne _ (fun hh => hne hh.symm)]

theorem toepMat_det (a b : List α) (K : ℕ)
    (hp : ∀ k, k + 1 < K → (ltzIter a b k).piv ≠ 0) :
    (toepMat a K).det = ∏ k : Fin K, (ltzIter a b k.val).piv := by
  have h1 := congrArg Matrix.det (VTV_diag a b K hp)
  rw [Matrix.det_diagonal] at h1
  rw [Matrix.det_mul, Matrix.det_mul, Matrix.det_transpose, ltzTri_det] at h1
  rw [one_mul, mul_one] at h1
  exact h1

theorem list_range_map_sum (n : ℕ) (f : ℕ → α) :
    ((List.range n).map f).sum = ∑ i ∈ Finset.range n, f i := by
  induction n with
  | zero => simp
  | succ n ih =>
      rw [List.range_succ, List.map_append, List.sum_append, Finset.sum_range_succ, ih]
      simp

theorem toepMat_eq_submatrix (a : List α) (K n : ℕ) (h : K ≤ n) :
    toepMat a K = (toepMat a n).submatrix (Fin.castLE h) (Fin.castLE h) := by
  ext i j
  rfl

/-! Facts specific to the real field: positive definiteness forces all
pivots to be positive, and the log of the determinant is the sum of the
logs of the pivots. -/

theorem real_mulVec_ext {n m : ℕ} (M : Matrix (Fin n) (Fin n) ℝ)
    (e : Fin m → Fin n) (x : Fin m → ℝ) (i : Fin n) :
    M.mulVec (fun t => ∑ j : Fin m, if e j = t then x j else 0) i
      = ∑ l : Fin m, M i (e l) * x l := by
  show (∑ k : Fin n, M i k * ∑ l : Fin m, if e l = k then x l else 0) = _
  have h1 : ∀ k : Fin n, M i k * (∑ l : Fin m, if e l = k then x l else 0)
      = ∑ l : Fin m, if e l = k then M i k * x l else 0 := by
    intro k
    rw [Finset.mul_sum]
    exact Finset.sum_congr rfl fun l _ => by
      by_cases h : e l = k
      · rw [if_pos h, if_pos h]
      · rw [if_neg h, if_neg h, mul_zero]
  rw [Finset.sum_congr rfl fun k _ => h1 k]
  rw [Finset.sum_comm]
  refine Finset.sum_congr rfl fun l _ => ?_
  have h2 : ∀ k : Fin n, (if e l = k then M i k * x l else 0)
      = if e l = k then M i (e l) * x l else 0 := by
    intro k
    by_cases h : e l = k
    · rw [if_pos h, if_pos h, h]
    · rw [if_neg h, if_neg h]
  rw [Finset.sum_congr rfl fun k _ => h2 k]
  rw [Finset.sum_ite_eq Finset.univ (e l) (fun _ => M i (e l) * x l)]
  rw [if_pos (Finset.mem_univ _)]

theorem posDef_submatrix_inj {n m : ℕ} {M : Matrix (Fin n) (Fin n) ℝ}
    (hM : M.PosDef) (e : Fin m → Fin n) (he : Function.Injective e) :
    (M.submatrix e e).PosDef := by
  refine ⟨hM.isHermitian.submatrix e, fun x hx => ?_⟩
  set y : Fin n → ℝ := fun i => ∑ j : Fin m, if e j = i then x j else 0 with hy
  have hyej : ∀ j : Fin m, y (e j) = x j := by
    intro j
    rw [hy]
    simp only [he.eq_iff]
    rw [Finset.sum_ite_eq' Finset.univ j x]
    rw [if_pos (Finset.mem_univ _)]
  have hy0 : y ≠ 0 := by
    obtain ⟨j0, hj0⟩ : ∃ j, x j ≠ 0 := by
      by_contra hall
      push_neg at hall
      exact hx (funext fun j => hall j)
    intro h0
    apply hj0
    rw [← hyej j0, h0]
    rfl
  have hq := hM.2 y hy0
  have hstar : ∀ v : Fin m → ℝ, star v = v := fun v => funext fun t => by
    simp [Pi.star_apply]
  have hstarn : ∀ v : Fin n → ℝ, star v = v := fun v => funext fun t => by
    simp [Pi.star_apply]
  have hdot : Matrix.dotProduct (star y) (M.mulVec y)
      = Matrix.dotProduct (star x) ((M.submatrix e e).mulVec x) := by
    rw [hstar, hstarn]
    show (∑ i : Fin n, y i * M.mulVec y i) = ∑ j : Fin m, x j * (M.submatrix e e).mulVec x j
    have hmv : ∀ i : Fin n, M.mulVec y i = ∑ l : Fin m, M i (e l) * x l := by
      intro i
      rw [hy]
      exact real_mulVec_ext M e x i
    have h3 : ∀ i : Fin n, y i * M.mulVec y i
        = ∑ j : Fin m, if e j = i then x j * M.mulVec y i else 0 := by
      intro i
      rw [hy]
      rw [Finset.sum_mul]
      exact Finset.sum_congr rfl fun j _ => by
        by_cases h : e j = i
        · rw [if_pos h, if_pos h]
        · rw [if_neg h, if_neg h, zero_mul]
    rw [Finset.sum_congr rfl fun i _ => h3 i]
    rw [Finset.sum_comm]
    refine Finset.sum_congr rfl fun j _ => ?_
    have h4 : ∀ i : Fin n, (if e j = i then x j * M.mulVec y i else 0)
        = if e j = i then x j * M.mulVec y (e j) else 0 := by
      intro i
      by_cases h : e j = i
      · rw [if_pos h, if_pos h, h]
      · rw [if_neg h, if_neg h]
    rw [Finset.sum_congr rfl fun i _ => h4 i]
    rw [Finset.sum_ite_eq Finset.univ (e j) (fun _ => x j * M.mulVec y (e j))]
    rw [if_pos (Finset.mem_univ _)]
    rw [hmv (e j)]
    rfl
  rw [← hdot]
  exact hq

theorem ltz_pivs_pos (a b : List ℝ) (n : ℕ) (hpd : (toepMat a n).PosDef) :
    ∀ k, k < n → 0 < (ltzIter a b k).piv := by
  intro k
  induction k using Nat.strong_induction_on with
  | _ k ih =>
    intro hk
    have hcast : Function.Injective (Fin.castLE (show k + 1 ≤ n by omega)) :=
      Fin.castLE_injective _
    have hsub : (toepMat a (k + 1)).PosDef := by
      rw [toepMat_eq_submatrix a (k + 1) n (by omega)]
      exact posDef_submatrix_inj hpd _ hcast
    have hdet : (toepMat a (k + 1)).det = ∏ j : Fin (k + 1), (ltzIter a b j.val).piv :=
      toepMat_det a b (k + 1) (fun t ht => (ih t (by omega) (by omega)).ne')
    have hdetpos : (0 : ℝ) < (toepMat a (k + 1)).det := hsub.det_pos
    have hprod : (∏ j : Fin (k + 1), (ltzIter a b j.val).piv)
        = (∏ j : Fin k, (ltzIter a b j.val).piv) * (ltzIter a b k).piv := by
    
      rw [Fin.prod_univ_castSucc]
      rfl
    have hP : (0 : ℝ) < ∏ j : Fin k, (ltzIter a b j.val).piv :=
      Finset.prod_pos fun j _ => ih j.val j.isLt (by omega)
    rw [hdet, hprod] at hdetpos
    rcases mul_pos_iff.mp hdetpos with ⟨_, h2⟩ | ⟨h1, _⟩
    · exact h2
    · linarith

theorem ltz_logdet (a b : List ℝ) (n : ℕ) (hn : 0 < n)
    (hp : ∀ k, k < n → 0 < (ltzIter a b k).piv) :
    ((ltzRun a b n).pivs.map Real.log).sum = Real.log ((toepMat a n).det) := by
  have hdet : (toepMat a n).det = ∏ k : Fin n, (ltzIter a b k.val).piv :=
    toepMat_det a b n (fun t ht => (hp t (by omega)).ne')
  rw [hdet]
  rw [Real.log_prod _ _ (fun j _ => (hp j.val j.isLt).ne')]
  unfold ltzRun
  rw [ltzIter_pivs_spec]
  have hidx : n - 1 + 1 = n := by omega
  rw [hidx]
  rw [List.map_map]
  rw [list_range_map_sum n (Real.log ∘ fun k => (ltzIter a b k).piv)]
  rw [← finSum_eq_rangeSum n (fun t => (Real.log ∘ fun k => (ltzIter a b k).piv) t)]
  rfl

/-! Models of the covariance-assembly helpers of GPToeplitz.py.  The
kernel function ToeplitzKernel and the mean function mf are abstract
callables in the Python code; they are modelled by their outputs: the
generating vector(s) the kernel returns (indexed by the white_noise
flag where the flag matters) and the mean vector produced by
mf(mf_pars, args) * np.ones(q). -/

theorem getD_drop_one (r : List α) (t : ℕ) (ht : t + 1 < r.length) :
    (r.drop 1).getD t 0 = r.getD (t + 1) 0 := by
  have h1 : t + 1 = 1 + t := Nat.add_comm t 1
  rw [h1]
  rw [List.getD_eq_getElem _ _ (by simp; omega), List.getD_eq_getElem _ _ (by omega)]
  rw [List.getElem_drop]

/-- Model of scipy.linalg.toeplitz(c, r): the matrix is read off a
single concatenated buffer holding the reversed first column followed
by the tail of the first row, entry (i, j) living at offset
len(c) - 1 + j - i.  The first element of r is ignored (the first
column takes precedence on the corner), exactly as documented by
scipy. -/
def scipyToeplitz (c r : List α) : Matrix (Fin c.length) (Fin r.length) α :=
  Matrix.of fun i j => (c.reverse ++ r.drop 1).getD (c.length - 1 + j.val - i.val) 0

theorem scipyToeplitz_apply (c r : List α) (i : Fin c.length) (j : Fin r.length) :
    scipyToeplitz c r i j
      = if j.val ≤ i.val then c.getD (i.val - j.val) 0 else r.getD (j.val - i.val) 0 := by
  have hi := i.isLt
  have hj := j.isLt
  show (c.reverse ++ r.drop 1).getD (c.length - 1 + j.val - i.val) 0 = _
  by_cases hij : j.val ≤ i.val
  · rw [if_pos hij]
    have hidx : c.length - 1 + j.val - i.val < c.reverse.length := by
      simp only [List.length_reverse]
      omega
    rw [List.getD_append _ _ _ _ hidx]
    rw [getD_reverse_in c _ (by simp at hidx; omega)]
    have he : c.length - 1 - (c.length - 1 + j.val - i.val) = i.val - j.val := by omega
    rw [he]
  · rw [if_neg hij]
    have hge : c.reverse.length ≤ c.length - 1 + j.val - i.val := by
      simp only [List.length_reverse]
      omega
    rw [List.getD_append_right _ _ _ _ hge]
    simp only [List.length_reverse]
    have he : c.length - 1 + j.val - i.val - c.length = j.val - i.val - 1 := by omega
    rw [he]
    rw [getD_drop_one r _ (by omega)]
    have he2 : j.val - i.val - 1 + 1 = j.val - i.val := by omega
    rw [he2]

theorem scipyToeplitz_sym_apply (c : List α) (i j : Fin c.length) :
    scipyToeplitz c c i j = c.getD (Nat.dist i.val j.val) 0 := by
  rw [scipyToeplitz_apply]
  by_cases hij : j.val ≤ i.val
  · rw [if_pos hij, dist_sub_right i.val j.val hij]
  · rw [if_neg hij, Nat.dist_comm, dist_sub_right j.val i.val (by omega)]

/-- CovarianceMatrixFullToeplitzMult from GPToeplitz.py: expands the
kernel generating vector (evaluated with white_noise=False) into the
full Toeplitz matrix, conjugates by the diagonal mean matrix
np.diag(m), and only then adds the white-noise term
np.identity * theta[-1]**2 to the diagonal.  The kernel output is the
function tk of the white_noise flag, mvec is the mean vector
mf(mf_pars, mf_args) * np.ones(n), and thetaLast is theta[-1]. -/
def CovarianceMatrixFullToeplitzMult (tk : Bool → List α)
    (mvec : Fin (tk false).length → α) (thetaLast : α) :
    Matrix (Fin (tk false).length) (Fin (tk false).length) α :=
  let K := scipyToeplitz (tk false) (tk false)
  let Kp := Matrix.diagonal mvec * K * Matrix.diagonal mvec
  Kp + thetaLast ^ 2 • (1 : Matrix (Fin (tk false).length) (Fin (tk false).length) α)

/-- CovarianceMatrixCornerDiagToeplitzMult from GPToeplitz.py: builds
the Toeplitz matrix from the kernel with white_noise=False, conjugates
by the diagonal predictive-mean matrix, optionally adds
np.identity * theta[-1]**2 when WhiteNoise is set, and finally keeps
only the diagonal via np.diag(np.diag(.)). -/
def CovarianceMatrixCornerDiagToeplitzMult (tk : Bool → List α)
    (ms : Fin (tk false).length → α) (thetaLast : α) (WhiteNoise : Bool) :
    Matrix (Fin (tk false).length) (Fin (tk false).length) α :=
  let K := scipyToeplitz (tk false) (tk false)
  let Kp := Matrix.diagonal ms * K * Matrix.diagonal ms
  let Kp2 := if WhiteNoise then
      Kp + thetaLast ^ 2 • (1 : Matrix (Fin (tk false).length) (Fin (tk false).length) α)
    else Kp
  Matrix.diagonal fun i => Kp2 i i

/-- CovarianceMatrixBlockToeplitz from GPToeplitz.py: the q x n block
LA.toeplitz(a, b) where a = ToeplitzKernel(X, Y, theta, white_noise=False)
has length q and b = ToeplitzKernel(Y, X, theta, white_noise=False) has
length n; the two kernel outputs are abstracted as the input lists. -/
def CovarianceMatrixBlockToeplitz (tkXY tkYX : List α) :
    Matrix (Fin tkXY.length) (Fin tkYX.length) α :=
  scipyToeplitz tkXY tkYX

/-! Bridging lemmas used to state the claims at the wrapper level. -/

theorem ltz_mulVec_of (a b : List α) (K : ℕ) (hK : 0 < K)
    (hp : ∀ k, k ≤ K - 1 → (ltzIter a b k).piv ≠ 0) (i : Fin K) :
    (toepMat a K).mulVec (fun j => (ltzRun a b K).sol.getD j.val 0) i
      = b.getD i.val 0 := by
  obtain ⟨m, rfl⟩ : ∃ m, K = m + 1 := ⟨K - 1, by omega⟩
  exact ltz_mulVec a b m hp i

theorem ltz_logsum (a b : List ℝ) (n : ℕ) (hn : 0 < n) :
    ((ltzRun a b n).pivs.map Real.log).sum
      = ∑ k ∈ Finset.range n, Real.log ((ltzIter a b k).piv) := by
  unfold ltzRun
  rw [ltzIter_pivs_spec]
  have hidx : n - 1 + 1 = n := by omega
  rw [hidx]
  rw [List.map_map]
  rw [list_range_map_sum n (Real.log ∘ fun k => (ltzIter a b k).piv)]
  rfl

theorem list_range_map_prod (n : ℕ) (f : ℕ → α) :
    ((List.range n).map f).prod = ∏ i ∈ Finset.range n, f i := by
  induction n with
  | zero => simp
  | succ n ih =>
      rw [List.range_succ, List.map_append, List.prod_append, Finset.prod_range_succ, ih]
      simp

theorem toepMat_two_posDef : (toepMat [(2 : ℝ)] 1).PosDef := by
  constructor
  · ext i j
    fin_cases i
    fin_cases j
    rfl
  · intro x hx
    have hx0 : x 0 ≠ 0 := by
      intro h0
      apply hx
      funext i
      fin_cases i
      exact h0
    have hval : Matrix.dotProduct (star x) ((toepMat [(2 : ℝ)] 1).mulVec x)
        = 2 * (x 0 * x 0) := by
      show (∑ i : Fin 1, star (x i) * ∑ j : Fin 1, toepMat [(2 : ℝ)] 1 i j * x j)
        = 2 * (x 0 * x 0)
      rw [Fin.sum_univ_one, Fin.sum_univ_one]
      have h2 : toepMat [(2 : ℝ)] 1 0 0 = 2 := rfl
      rw [h2]
      simp only [star_trivial]
      ring
    rw [hval]
    have h2 := mul_self_pos.mpr hx0
    linarith

/-- C1: for every symmetric positive-definite Toeplitz matrix A given
by generating vector a, and every right-hand side b of the same length
n, the modelled solver returns a solution x with A x = b exactly (exact
real arithmetic stands in for the floating-point tolerance) and a
log-determinant equal to log det A, accumulated as the sum of
log p_k over the recursion pivots k = 0 .. n-1. -/
theorem C1_solver_correct (a b x0 : List ℝ) (hb : b.length = a.length)
    (hn : 0 < a.length) (hpd : (toepMat a a.length).PosDef) :
    (∀ i : Fin a.length,
        (toepMat a a.length).mulVec
          (fun j => (LTZSolveC Real.log a x0 b a.length).2.getD j.val 0) i
          = b.getD i.val 0)
    ∧ (LTZSolveC Real.log a x0 b a.length).1 = Real.log ((toepMat a a.length).det)
    ∧ (LTZSolveC Real.log a x0 b a.length).1
        = ∑ k ∈ Finset.range a.length, Real.log ((ltzIter a b k).piv) := by
  have hpos := ltz_pivs_pos a b a.length hpd
  have hple : ∀ k, k ≤ a.length - 1 → (ltzIter a b k).piv ≠ 0 :=
    fun k hk => (hpos k (by omega)).ne'
  refine ⟨?_, ?_, ?_⟩
  · intro i
    exact ltz_mulVec_of a b a.length hn hple i
  · show ((ltzRun a b a.length).pivs.map Real.log).sum = _
    exact ltz_logdet a b a.length hn hpos
  · show ((ltzRun a b a.length).pivs.map Real.log).sum = _
    exact ltz_logsum a b a.length hn

theorem C1_solver_correct_witness :
    (([(4 : ℝ)] : List ℝ).length = ([(2 : ℝ)] : List ℝ).length
      ∧ 0 < ([(2 : ℝ)] : List ℝ).length
      ∧ (toepMat [(2 : ℝ)] ([(2 : ℝ)] : List ℝ).length).PosDef)
    ∧ ((∀ i : Fin ([(2 : ℝ)] : List ℝ).length,
          (toepMat [(2 : ℝ)] ([(2 : ℝ)] : List ℝ).length).mulVec
            (fun j => (LTZSolveC Real.log [(2 : ℝ)] [0] [4]
              ([(2 : ℝ)] : List ℝ).length).2.getD j.val 0) i
            = ([(4 : ℝ)] : List ℝ).getD i.val 0)
      ∧ (LTZSolveC Real.log [(2 : ℝ)] [0] [4] ([(2 : ℝ)] : List ℝ).length).1
          = Real.log ((toepMat [(2 : ℝ)] ([(2 : ℝ)] : List ℝ).length).det)
      ∧ (LTZSolveC Real.log [(2 : ℝ)] [0] [4] ([(2 : ℝ)] : List ℝ).length).1
          = ∑ k ∈ Finset.range ([(2 : ℝ)] : List ℝ).length,
              Real.log ((ltzIter [(2 : ℝ)] [(4 : ℝ)] k).piv)) :=
  ⟨⟨rfl, by norm_num, toepMat_two_posDef⟩,
    C1_solver_correct [2] [4] [0] rfl (by norm_num) toepMat_two_posDef⟩

/-- C2 counterexample: on the one-dimensional system 2 x = 4 the
wrapper returns the pair (log 2, [2]): the FIRST component is the
log-determinant of the matrix and the SECOND is the solution vector,
so the pair is (logdet, x), not (x, logdet) as claimed. -/
theorem C2_counterexample :
    LTZSolve Real.log [(2 : ℝ)] [4] [0] = some (Real.log 2, [2])
    ∧ Real.log 2 = Real.log ((toepMat [(2 : ℝ)] 1).det)
    ∧ (∀ i : Fin 1,
        (toepMat [(2 : ℝ)] 1).mulVec (fun j => ([(2 : ℝ)] : List ℝ).getD j.val 0) i
          = ([(4 : ℝ)] : List ℝ).getD i.val 0) := by
  refine ⟨?_, ?_, ?_⟩
  · show (if (1 : ℕ) = 1 then
        if (1 : ℕ) = 1 then some (LTZSolveC Real.log [(2 : ℝ)] [0] [4] 1) else none
      else none) = some (Real.log 2, [2])
    rw [if_pos rfl, if_pos rfl]
    show some ((([(2 : ℝ)].map Real.log).sum, [(4 : ℝ) / 2]) : ℝ × List ℝ)
      = some (Real.log 2, [2])
    norm_num
  · have hdet : (toepMat [(2 : ℝ)] 1).det = 2 := by
      rw [Matrix.det_fin_one]
      rfl
    rw [hdet]
  · intro i
    fin_cases i
    show (∑ j : Fin 1, toepMat [(2 : ℝ)] 1 0 j * ([(2 : ℝ)] : List ℝ).getD j.val 0)
      = ([(4 : ℝ)] : List ℝ).getD 0 0
    rw [Fin.sum_univ_one]
    have h2 : toepMat [(2 : ℝ)] 1 0 0 = 2 := rfl
    rw [h2]
    norm_num

/-- C2 amended: for every valid input the wrapper returns the pair
(logdet, x) in that order: the scalar log-determinant first and the
solution vector second (the Python return statement is
return logdetK, x). -/
theorem C2_returns_logdet_first (a b x0 : List ℝ) (hab : a.length = b.length)
    (hax : a.length = x0.length) (hn : 0 < a.length)
    (hpd : (toepMat a a.length).PosDef) :
    ∃ ld xs, LTZSolve Real.log a b x0 = some (ld, xs)
      ∧ ld = Real.log ((toepMat a a.length).det)
      ∧ ∀ i : Fin a.length,
          (toepMat a a.length).mulVec (fun j => xs.getD j.val 0) i = b.getD i.val 0 := by
  have hpos := ltz_pivs_pos a b a.length hpd
  have hple : ∀ k, k ≤ a.length - 1 → (ltzIter a b k).piv ≠ 0 :=
    fun k hk => (hpos k (by omega)).ne'
  refine ⟨((ltzRun a b a.length).pivs.map Real.log).sum, (ltzRun a b a.length).sol,
    ?_, ?_, ?_⟩
  · unfold LTZSolve
    rw [if_pos hab, if_pos hax]
    rfl
  · exact ltz_logdet a b a.length hn hpos
  · intro i
    exact ltz_mulVec_of a b a.length hn hple i

theorem C2_returns_logdet_first_witness :
    (([(2 : ℝ)] : List ℝ).length = ([(4 : ℝ)] : List ℝ).length
      ∧ ([(2 : ℝ)] : List ℝ).length = ([(0 : ℝ)] : List ℝ).length
      ∧ 0 < ([(2 : ℝ)] : List ℝ).length
      ∧ (toepMat [(2 : ℝ)] ([(2 : ℝ)] : List ℝ).length).PosDef)
    ∧ (∃ ld xs, LTZSolve Real.log [(2 : ℝ)] [4] [0] = some (ld, xs)
        ∧ ld = Real.log ((toepMat [(2 : ℝ)] ([(2 : ℝ)] : List ℝ).length).det)
        ∧ ∀ i : Fin ([(2 : ℝ)] : List ℝ).length,
            (toepMat [(2 : ℝ)] ([(2 : ℝ)] : List ℝ).length).mulVec
              (fun j => xs.getD j.val 0) i = ([(4 : ℝ)] : List ℝ).getD i.val 0) :=
  ⟨⟨rfl, rfl, by norm_num, toepMat_two_posDef⟩,
    C2_returns_logdet_first [2] [4] [0] rfl rfl (by norm_num) toepMat_two_posDef⟩

/-- C3 counterexample: with a = b = x = [] all three lengths agree and
n = 0 < 1, yet the wrapper does not fail: both assertions pass and the
call goes through to the solver.  The claimed n >= 1 check does not
exist in the code. -/
theorem C3_counterexample :
    (LTZSolve (fun t : ℚ => t) [] [] []).isSome = true
    ∧ ([] : List ℚ).length < 1 := by
  constructor
  · rfl
  · decide

/-- C3 amended: the wrapper fails (assertion error, modelled as none)
exactly when the lengths of a, b, x disagree; the check happens in the
wrapper before the solver call, and on failure no solution is
produced.  The n < 1 case is NOT rejected: length-0 inputs with equal
lengths pass both assertions. -/
theorem C3_dimension_check (rlog : α → α) (a b x : List α) :
    LTZSolve rlog a b x = none ↔ ¬(a.length = b.length ∧ a.length = x.length) := by
  unfold LTZSolve
  by_cases h1 : a.length = b.length
  · rw [if_pos h1]
    by_cases h2 : a.length = x.length
    · rw [if_pos h2]
      constructor
      · intro h
        exact (Option.some_ne_none _ h).elim
      · intro hcon
        exact (hcon ⟨h1, h2⟩).elim
    · rw [if_neg h2]
      constructor
      · intro _
        exact fun hc => h2 hc.2
      · intro _
        rfl
  · rw [if_neg h1]
    constructor
    · intro _
      exact fun hc => h1 hc.1
    · intro _
      rfl

/-- Modelled from the spec (sections 4.1 side effects and 5): the
solver call viewed as a transformer of the three caller buffers a, x, b
with explicit length n.  The triple holds the final contents of the
buffers after the call, the scalar is the returned log-determinant
value; per the spec only x is (re)written, with the solution of the
order n-1 recursion, while a and b pass through untouched. -/
def LTZSolveCBuffers (rlog : α → α) (a x b : List α) (n : ℕ) :
    (List α × List α × List α) × α :=
  ((a, (ltzRun a b n).sol, b), ((ltzRun a b n).pivs.map rlog).sum)

/-- C5: a solve call writes only the caller-supplied x buffer: the a
and b buffers come back unchanged, x holds the length-n solution
produced by the recursion, and the log-determinant is returned as a
separate scalar value. -/
theorem C5_frame_effect (rlog : α → α) (a x b : List α) (n : ℕ) (hn : 0 < n) :
    (LTZSolveCBuffers rlog a x b n).1.1 = a
    ∧ (LTZSolveCBuffers rlog a x b n).1.2.2 = b
    ∧ (LTZSolveCBuffers rlog a x b n).1.2.1 = (ltzRun a b n).sol
    ∧ (LTZSolveCBuffers rlog a x b n).1.2.1.length = n
    ∧ (LTZSolveCBuffers rlog a x b n).2 = ((ltzRun a b n).pivs.map rlog).sum := by
  refine ⟨rfl, rfl, rfl, ?_, rfl⟩
  show (ltzRun a b n).sol.length = n
  unfold ltzRun
  rw [ltzIter_sol_length]
  omega

theorem C5_frame_effect_witness :
    0 < 1
    ∧ ((LTZSolveCBuffers (fun t : ℚ => t) [2] [5] [4] 1).1.1 = [2]
      ∧ (LTZSolveCBuffers (fun t : ℚ => t) [2] [5] [4] 1).1.2.2 = [4]
      ∧ (LTZSolveCBuffers (fun t : ℚ => t) [2] [5] [4] 1).1.2.1
          = (ltzRun [(2 : ℚ)] [4] 1).sol
      ∧ (LTZSolveCBuffers (fun t : ℚ => t) [2] [5] [4] 1).1.2.1.length = 1
      ∧ (LTZSolveCBuffers (fun t : ℚ => t) [2] [5] [4] 1).2
          = ((ltzRun [(2 : ℚ)] [4] 1).pivs.map fun t : ℚ => t).sum) :=
  ⟨by decide, C5_frame_effect (fun t : ℚ => t) [2] [5] [4] 1 (by decide)⟩

/-- C7: the solve operation is deterministic with no hidden state: its
result is a pure function of a, b and the length of the out-buffer x;
in particular two calls whose x buffers merely have equal length (any
contents) return identical results, hence two calls with identical
inputs return bit-identical results. -/
theorem C7_deterministic (rlog : α → α) (a b x1 x2 : List α)
    (h : x1.length = x2.length) :
    LTZSolve rlog a b x1 = LTZSolve rlog a b x2 := by
  have hC : LTZSolveC rlog a x1 b a.length = LTZSolveC rlog a x2 b a.length := rfl
  unfold LTZSolve
  rw [h, hC]

theorem C7_deterministic_witness :
    ([(7 : ℚ)] : List ℚ).length = ([(9 : ℚ)] : List ℚ).length
    ∧ LTZSolve (fun t : ℚ => t) [2] [4] [7] = LTZSolve (fun t : ℚ => t) [2] [4] [9] :=
  ⟨rfl, C7_deterministic (fun t : ℚ => t) [2] [4] [7] [9] rfl⟩

/-- The hand-picked generating vector of the __main__ self-test block
of GPToeplitz.py. -/
def mainA : List ℚ := [30, 1, 3/10, 1/5, 1/10, 1/5, 3/10, 15, 12, 8]

/-- The hand-picked right-hand side of the __main__ self-test block of
GPToeplitz.py. -/
def mainB : List ℚ := [1, 6/5, 23/10, 1/5, 1, 2, 13/10, 1, 5, 1/5]

/-! Explicit evaluation of the recursion states on the hard-coded
self-test data, needed because rational arithmetic is evaluated
here by the simp-arith machinery. -/

theorem ltzIter_main_state0 :
    ltzIter mainA mainB 0 = LTZState.mk [(1 : ℚ)] (30 : ℚ) [((1 : ℚ)/30)] [(30 : ℚ)] := by
  norm_num [ltzIter, ltzInit, mainA, mainB]

theorem ltzIter_main_state1 :
    ltzIter mainA mainB 1 = LTZState.mk [(1 : ℚ), ((-1 : ℚ)/30)] ((899 : ℚ)/30) [((144 : ℚ)/4495), ((35 : ℚ)/899)] [(30 : ℚ), ((899 : ℚ)/30)] := by
  rw [show ltzIter mainA mainB 1 = ltzStep mainA mainB 1 (ltzIter mainA mainB 0) from rfl,
    ltzIter_main_state0]
  norm_num [ltzStep, corrF, mainA, mainB, Finset.sum_range_succ]

theorem ltzIter_main_state2 :
    ltzIter mainA mainB 2 = LTZState.mk [(1 : ℚ), ((-297 : ℚ)/8990), ((-8 : ℚ)/899)] ((269379 : ℚ)/8990) [((42248 : ℚ)/1346895), ((1653 : ℚ)/45350), ((101203 : ℚ)/1346895)] [(30 : ℚ), ((899 : ℚ)/30), ((269379 : ℚ)/8990)] := by
  rw [show ltzIter mainA mainB 2 = ltzStep mainA mainB 2 (ltzIter mainA mainB 1) from rfl,
    ltzIter_main_state1]
  norm_num [ltzStep, corrF, mainA, mainB, Finset.sum_range_succ]

theorem ltzIter_main_state3 :
    ltzIter mainA mainB 3 = LTZState.mk [(1 : ℚ), ((-88849 : ℚ)/2693790), ((-789 : ℚ)/90700), ((-16289 : ℚ)/2693790)] ((8071456321 : ℚ)/269379000) [((253001681 : ℚ)/8071456321), ((293950980 : ℚ)/8071456321), ((605516614 : ℚ)/8071456321), ((28999634 : ℚ)/8071456321)] [(30 : ℚ), ((899 : ℚ)/30), ((269379 : ℚ)/8990), ((8071456321 : ℚ)/269379000)] := by
  rw [show ltzIter mainA mainB 3 = ltzStep mainA mainB 3 (ltzIter mainA mainB 2) from rfl,
    ltzIter_main_state2]
  norm_num [ltzStep, corrF, mainA, mainB, Finset.sum_range_succ]

theorem ltzIter_main_state4 :
    ltzIter mainA mainB 4 = LTZState.mk [(1 : ℚ), ((-266081974 : ℚ)/8071456321), ((-70015071 : ℚ)/8071456321), ((-48054086 : ℚ)/8071456321), ((-22829021 : ℚ)/8071456321)] ((1209223547077 : ℚ)/40357281605) [((75586834507 : ℚ)/2418447094154), ((43806708339 : ℚ)/1209223547077), ((2036941 : ℚ)/27253486), ((3062746769 : ℚ)/1209223547077), ((77767113387 : ℚ)/2418447094154)] [(30 : ℚ), ((899 : ℚ)/30), ((269379 : ℚ)/8990), ((8071456321 : ℚ)/269379000), ((1209223547077 : ℚ)/40357281605)] := by
  rw [show ltzIter mainA mainB 4 = ltzStep mainA mainB 4 (ltzIter mainA mainB 3) from rfl,
    ltzIter_main_state3]
  norm_num [ltzStep, corrF, mainA, mainB, Finset.sum_range_succ]

theorem ltzIter_main_state5 :
    ltzIter mainA mainB 5 = LTZState.mk [(1 : ℚ), ((-39841287509 : ℚ)/1209223547077), ((-10443556813 : ℚ)/1209223547077), ((-80377 : ℚ)/13626743), ((-3166876051 : ℚ)/1209223547077), ((-7682174029 : ℚ)/1209223547077)] ((181152262102128 : ℚ)/6046117735385) [((11174360823667 : ℚ)/362304524204256), ((13063746953053 : ℚ)/362304524204256), ((26940312280469 : ℚ)/362304524204256), ((714811195075 : ℚ)/362304524204256), ((10876371212267 : ℚ)/362304524204256), ((23486297484053 : ℚ)/362304524204256)] [(30 : ℚ), ((899 : ℚ)/30), ((269379 : ℚ)/8990), ((8071456321 : ℚ)/269379000), ((1209223547077 : ℚ)/40357281605), ((181152262102128 : ℚ)/6046117735385)] := by
  rw [show ltzIter mainA mainB 5 = ltzStep mainA mainB 5 (ltzIter mainA mainB 4) from rfl,
    ltzIter_main_state4]
  norm_num [ltzStep, corrF, mainA, mainB, Finset.sum_range_succ]

theorem ltzIter_main_state6 :
    ltzIter mainA mainB 6 = LTZState.mk [(1 : ℚ), ((-11915311645825 : ℚ)/362304524204256), ((-3120071118751 : ℚ)/362304524204256), ((-2116771296695 : ℚ)/362304524204256), ((-919167897409 : ℚ)/362304524204256), ((-2188473439145 : ℚ)/362304524204256), ((-3436956991751 : ℚ)/362304524204256)] ((21708600680623591 : ℚ)/724609048408512) [((3306424735318244 : ℚ)/108543003403117955), ((1882553089163 : ℚ)/52563197773907), ((8060015112374801 : ℚ)/108543003403117955), ((7165593 : ℚ)/4121541613), ((3220958441509244 : ℚ)/108543003403117955), ((3338046070211 : ℚ)/52563197773907), ((4354446215130271 : ℚ)/108543003403117955)] [(30 : ℚ), ((899 : ℚ)/30), ((269379 : ℚ)/8990), ((8071456321 : ℚ)/269379000), ((1209223547077 : ℚ)/40357281605), ((181152262102128 : ℚ)/6046117735385), ((21708600680623591 : ℚ)/724609048408512)] := by
  rw [show ltzIter mainA mainB 6 = ltzStep mainA mainB 6 (ltzIter mainA mainB 5) from rfl,
    ltzIter_main_state5]
  norm_num [ltzStep, corrF, mainA, mainB, Finset.sum_range_succ]

theorem ltzIter_main_state7 :
    ltzIter mainA mainB 7 = LTZState.mk [(1 : ℚ), ((-610999017739197 : ℚ)/21708600680623591), ((-587891045479 : ℚ)/105126395547814), ((-99301969847793 : ℚ)/21708600680623591), ((3161821 : ℚ)/8243083226), ((-37676679650217 : ℚ)/21708600680623591), ((731002270681 : ℚ)/105126395547814), ((-10851760491227393 : ℚ)/21708600680623591)] ((1951411666902141569 : ℚ)/86834402722494364) [((199075462942283118 : ℚ)/9757058334510707845), ((350814649776203424 : ℚ)/9757058334510707845), ((724183498754627977 : ℚ)/9757058334510707845), ((17038646836355026 : ℚ)/9757058334510707845), ((288637661882313718 : ℚ)/9757058334510707845), ((618527805436546664 : ℚ)/9757058334510707845), ((385900441519976627 : ℚ)/9757058334510707845), ((196331837182721186 : ℚ)/9757058334510707845)] [(30 : ℚ), ((899 : ℚ)/30), ((269379 : ℚ)/8990), ((8071456321 : ℚ)/269379000), ((1209223547077 : ℚ)/40357281605), ((181152262102128 : ℚ)/6046117735385), ((21708600680623591 : ℚ)/724609048408512), ((1951411666902141569 : ℚ)/86834402722494364)] := by
  rw [show ltzIter mainA mainB 7 = ltzStep mainA mainB 7 (ltzIter mainA mainB 6) from rfl,
    ltzIter_main_state6]
  norm_num [ltzStep, corrF, mainA, mainB, Finset.sum_range_succ]

theorem ltzIter_main_state8 :
    ltzIter mainA mainB 8 = LTZState.mk [(1 : ℚ), ((425901572488393716 : ℚ)/1951411666902141569), ((-17601196052103356 : ℚ)/1951411666902141569), ((-7256974611600096 : ℚ)/1951411666902141569), ((379559145150796 : ℚ)/1951411666902141569), ((1013118087638736 : ℚ)/1951411666902141569), ((18948277300337924 : ℚ)/1951411666902141569), ((-948405086758337956 : ℚ)/1951411666902141569), ((-961875060412581993 : ℚ)/1951411666902141569)] ((33198867862210780708 : ℚ)/1951411666902141569) [((-4137728031205405077 : ℚ)/41498584827763475885), ((-62228212326287668 : ℚ)/754519724141154107), ((288934280881697879 : ℚ)/3772598620705770535), ((914335411613450 : ℚ)/488218645032511481), ((40971366774 : ℚ)/1382773658915), ((30507155825680360 : ℚ)/488218645032511481), ((140917914403763269 : ℚ)/3772598620705770535), ((55310113098091138 : ℚ)/754519724141154107), ((10112208073673794043 : ℚ)/41498584827763475885)] [(30 : ℚ), ((899 : ℚ)/30), ((269379 : ℚ)/8990), ((8071456321 : ℚ)/269379000), ((1209223547077 : ℚ)/40357281605), ((181152262102128 : ℚ)/6046117735385), ((21708600680623591 : ℚ)/724609048408512), ((1951411666902141569 : ℚ)/86834402722494364), ((33198867862210780708 : ℚ)/1951411666902141569)] := by
  rw [show ltzIter mainA mainB 8 = ltzStep mainA mainB 8 (ltzIter mainA mainB 7) from rfl,
    ltzIter_main_state7]
  norm_num [ltzStep, corrF, mainA, mainB, Finset.sum_range_succ]

theorem ltzIter_main_state9 :
    ltzIter mainA mainB 9 = LTZState.mk [(1 : ℚ), ((16716321315663241773 : ℚ)/33198867862210780708), ((205420397623033955 : ℚ)/754519724141154107), ((-7046016060349055 : ℚ)/754519724141154107), ((-51731763695000 : ℚ)/488218645032511481), ((112448335 : ℚ)/276554731783), ((5791381681117820 : ℚ)/488218645032511481), ((-362765294056410395 : ℚ)/754519724141154107), ((-467216750118416982 : ℚ)/754519724141154107), ((-19213487464570605013 : ℚ)/33198867862210780708)] ((375628955803551879255 : ℚ)/33198867862210780708) [((-16023874911579142939 : ℚ)/125209651934517293085), ((-4704547867439211764 : ℚ)/41736550644839097695), ((6649046667328224629 : ℚ)/125209651934517293085), ((61408189092298538 : ℚ)/25041930386903458617), ((3712429111093489666 : ℚ)/125209651934517293085), ((1564657153163844520 : ℚ)/25041930386903458617), ((4619844624962238959 : ℚ)/125209651934517293085), ((2168714695645208654 : ℚ)/25041930386903458617), ((2239337702674388991 : ℚ)/8347310128967819539), ((6115897323546989752 : ℚ)/125209651934517293085)] [(30 : ℚ), ((899 : ℚ)/30), ((269379 : ℚ)/8990), ((8071456321 : ℚ)/269379000), ((1209223547077 : ℚ)/40357281605), ((181152262102128 : ℚ)/6046117735385), ((21708600680623591 : ℚ)/724609048408512), ((1951411666902141569 : ℚ)/86834402722494364), ((33198867862210780708 : ℚ)/1951411666902141569), ((375628955803551879255 : ℚ)/33198867862210780708)] := by
  rw [show ltzIter mainA mainB 9 = ltzStep mainA mainB 9 (ltzIter mainA mainB 8) from rfl,
    ltzIter_main_state8]
  norm_num [ltzStep, corrF, mainA, mainB, Finset.sum_range_succ]

theorem ltzIter_main_piv_ne : ∀ k, k ≤ 9 → (ltzIter mainA mainB k).piv ≠ 0 := by
  intro k hk
  interval_cases k
  · rw [ltzIter_main_state0]
    norm_num
  · rw [ltzIter_main_state1]
    norm_num
  · rw [ltzIter_main_state2]
    norm_num
  · rw [ltzIter_main_state3]
    norm_num
  · rw [ltzIter_main_state4]
    norm_num
  · rw [ltzIter_main_state5]
    norm_num
  · rw [ltzIter_main_state6]
    norm_num
  · rw [ltzIter_main_state7]
    norm_num
  · rw [ltzIter_main_state8]
    norm_num
  · rw [ltzIter_main_state9]
    norm_num

theorem toepMat_det_rat (a b : List ℚ) (K : ℕ)
    (hp : ∀ k, k + 1 < K → (ltzIter a b k).piv ≠ 0) :
    (toepMat a K).det = ∏ k : Fin K, (ltzIter a b k.val).piv :=
  toepMat_det a b K hp

/-- C6: exact-arithmetic content of the self-test comparison on the
hard-coded data of the __main__ block: the recursion solution solves
the dense Toeplitz system exactly, and the dense determinant equals
the product of the recursion pivots (so the log-determinants agree).
The block itself never performs this comparison: it calls
LTZSolve(a, b) with two arguments while LTZSolve requires three, which
raises a TypeError before the solver runs. -/
theorem C6_main_example_agrees :
    (∀ i : Fin (10 : ℕ),
        (toepMat mainA 10).mulVec
          (fun j => (ltzRun mainA mainB 10).sol.getD j.val 0) i
          = mainB.getD i.val 0)
    ∧ (toepMat mainA 10).det = ((ltzRun mainA mainB 10).pivs).prod := by
  have hp : ∀ k, k ≤ 9 → (ltzIter mainA mainB k).piv ≠ 0 := ltzIter_main_piv_ne
  constructor
  · intro i
    exact ltz_mulVec_of mainA mainB 10 (by norm_num) hp i
  · rw [toepMat_det_rat mainA mainB 10 (fun t ht => hp t (by omega))]
    show (∏ k : Fin 10, (ltzIter mainA mainB k.val).piv)
      = ((ltzIter mainA mainB 9).pivs).prod
    rw [ltzIter_pivs_spec]
    rw [list_range_map_prod (9 + 1) (fun k => (ltzIter mainA mainB k).piv)]
    exact Fin.prod_univ_eq_prod_range (fun k => (ltzIter mainA mainB k).piv) 10

theorem covCornerDiag_eq_diagonal (tk : Bool → List α)
    (ms : Fin (tk false).length → α) (thetaLast : α) (WhiteNoise : Bool) :
    CovarianceMatrixCornerDiagToeplitzMult tk ms thetaLast WhiteNoise
      = Matrix.diagonal (fun i =>
          (if WhiteNoise then
            Matrix.diagonal ms * scipyToeplitz (tk false) (tk false) * Matrix.diagonal ms
              + thetaLast ^ 2 •
                  (1 : Matrix (Fin (tk false).length) (Fin (tk false).length) α)
          else
            Matrix.diagonal ms * scipyToeplitz (tk false) (tk false) * Matrix.diagonal ms)
            i i) :=
  rfl

/-- C8: for every input the matrix returned by
CovarianceMatrixCornerDiagToeplitzMult is diagonal: every off-diagonal
entry is exactly zero, whichever value the WhiteNoise flag takes; and
when WhiteNoise is set the diagonal carries the extra noise term
theta[-1]^2 on top of the noise-free diagonal. -/
theorem C8_corner_diag_is_diagonal (tk : Bool → List α)
    (ms : Fin (tk false).length → α) (thetaLast : α)
    (i j : Fin (tk false).length) (hij : i ≠ j) :
    (∀ WhiteNoise : Bool,
        CovarianceMatrixCornerDiagToeplitzMult tk ms thetaLast WhiteNoise i j = 0)
    ∧ CovarianceMatrixCornerDiagToeplitzMult tk ms thetaLast true i i
        = CovarianceMatrixCornerDiagToeplitzMult tk ms thetaLast false i i
          + thetaLast ^ 2 := by
  constructor
  · intro wn
    rw [covCornerDiag_eq_diagonal]
    exact Matrix.diagonal_apply_ne _ hij
  · rw [covCornerDiag_eq_diagonal, covCornerDiag_eq_diagonal]
    rw [Matrix.diagonal_apply_eq, Matrix.diagonal_apply_eq]
    rw [if_pos rfl, if_neg (by simp)]
    rw [Matrix.add_apply, Matrix.smul_apply, Matrix.one_apply_eq, smul_eq_mul, mul_one]

def tkW : Bool → List ℚ := fun _ => [5, 7]

theorem C8_corner_diag_is_diagonal_witness :
    ((⟨0, by decide⟩ : Fin (tkW false).length) ≠ (⟨1, by decide⟩ : Fin (tkW false).length))
    ∧ ((∀ WhiteNoise : Bool,
          CovarianceMatrixCornerDiagToeplitzMult tkW (fun t => (3 : ℚ)) 2 WhiteNoise
            ⟨0, by decide⟩ ⟨1, by decide⟩ = 0)
      ∧ CovarianceMatrixCornerDiagToeplitzMult tkW (fun t => (3 : ℚ)) 2 true
          ⟨0, by decide⟩ ⟨0, by decide⟩
          = CovarianceMatrixCornerDiagToeplitzMult tkW (fun t => (3 : ℚ)) 2 false
              ⟨0, by decide⟩ ⟨0, by decide⟩ + 2 ^ 2) :=
  ⟨by decide,
    C8_corner_diag_is_diagonal tkW (fun t => 3) 2 ⟨0, by decide⟩ ⟨1, by decide⟩ (by decide)⟩

/-- C9: in CovarianceMatrixFullToeplitzMult the kernel is evaluated
with white_noise set to false, and the white-noise term theta[-1]^2 is
added to the diagonal only after the affine mean transform: every
entry equals m[i] * m[j] * k[|i-j|] plus theta[-1]^2 exactly on the
diagonal, so the noise term is not scaled by the mean. -/
theorem C9_full_mult_entry (tk : Bool → List α) (mvec : Fin (tk false).length → α)
    (thetaLast : α) (i j : Fin (tk false).length) :
    CovarianceMatrixFullToeplitzMult tk mvec thetaLast i j
      = mvec i * mvec j * (tk false).getD (Nat.dist i.val j.val) 0
        + (if i = j then thetaLast ^ 2 else 0) := by
  show (Matrix.diagonal mvec * scipyToeplitz (tk false) (tk false) * Matrix.diagonal mvec
      + thetaLast ^ 2 •
          (1 : Matrix (Fin (tk false).length) (Fin (tk false).length) α)) i j = _
  rw [Matrix.add_apply]
  rw [Matrix.mul_diagonal, Matrix.diagonal_mul]
  rw [scipyToeplitz_sym_apply]
  rw [Matrix.smul_apply, Matrix.one_apply]
  by_cases h : i = j
  · rw [if_pos h, if_pos h, smul_eq_mul, mul_one]
    ring
  · rw [if_neg h, if_neg h, smul_eq_mul, mul_zero]
    ring

/-- C10: CovarianceMatrixBlockToeplitz returns the q x n block whose
entry (i, j) is a[i-j] when i is at least j and b[j-i] when j exceeds
i, where a is the kernel output for (X, Y) and b the kernel output for
(Y, X); in particular at the top-left corner (i = j = 0) the entry is
a[0]: the first column takes precedence over b[0]. -/
theorem C10_block_toeplitz_entry (tkXY tkYX : List α)
    (i : Fin tkXY.length) (j : Fin tkYX.length) :
    CovarianceMatrixBlockToeplitz tkXY tkYX i j
      = if j.val ≤ i.val then tkXY.getD (i.val - j.val) 0
        else tkYX.getD (j.val - i.val) 0 :=
  scipyToeplitz_apply tkXY tkYX i j
